import Mathlib

/-!
Verification of the prompt-definition compiler (the prompt-parser crate).

The development shallowly embeds the crate's pure core:

* the type-shorthand parser `TypeDef::from_str` and its JSON-Schema lowering
  `TypeDef::to_json_schema`;
* the YAML-value schema compiler `parse_schema_value` / `parse_schema`
  together with the structural optionality test `is_optional_schema`;
* the frontmatter splitter `split_frontmatter` (including the exact
  semantics of Rust's `str::lines`);
* the prompt-definition assembler `parse_prompt_file`, parameterized by the
  external YAML text parser (serde_yaml), whose struct-decoding step for the
  `Frontmatter` record is modelled from the struct declaration;
* the two schema-validation entry points `validate_json` and
  `validate_with_details`, parameterized by the external JSON-Schema
  evaluator (the jsonschema crate) they both delegate to.

Rust strings are modelled as `List Char`; `String` wrappers are provided at
the API boundary.  Machine integers that matter (`max_turns : u32`) are
modelled as `Nat` with an explicit range check in the decoder.
-/

namespace PromptParser

/-- Character-list model of a Rust `&str`. -/
abbrev Chars := List Char

/-- Rust `str::trim`: drop whitespace from both ends of the string. -/
def trimChars (l : Chars) : Chars :=
  ((l.dropWhile Char.isWhitespace).reverse.dropWhile Char.isWhitespace).reverse

/-- Rust `str::split(sep)`: the pieces between occurrences of `sep`.
Splitting the empty string yields one empty piece, as in Rust. -/
def splitCh (sep : Char) (l : Chars) : List Chars :=
  l.foldr (fun c acc => if c = sep then [] :: acc else (c :: acc.headI) :: acc.tail) [[]]

/-- Join pieces with a newline, as the splitter's `join("\n")`. -/
def joinNL (pieces : List Chars) : Chars :=
  List.intercalate ['\n'] pieces

/-- Strip one trailing carriage return from a line, as Rust `str::lines`
does for every line that was terminated by a line feed. -/
def stripCR (l : Chars) : Chars :=
  if l.getLastD ' ' = '\r' then l.dropLast else l

/-- Rust `content.lines().collect::<Vec<_>>()`: pieces between line feeds,
with a carriage return stripped from every terminated line, and no final
empty piece when the text ends in a line feed (the final, unterminated
piece keeps a trailing carriage return, exactly as in Rust). -/
def rustLines (s : Chars) : List Chars :=
  let parts := splitCh '\n' s
  parts.dropLast.map stripCR ++
    (if parts.getLastD [] = [] then [] else [parts.getLastD []])

/-- Error type of the crate (`PromptError`).  Payloads are reduced to the
message strings the constructors carry. -/
inductive PromptError where
  | ioError (msg : String)
  | yamlParse (line : Nat) (message : String)
  | templateCompile (msg : String)
  | missingField (name : String)
  | invalidSchema (msg : String)
  | utf8 (msg : String)
  | validationFailed (msg : String)
deriving DecidableEq

/-- The recursive type-shorthand tree (`TypeDef`).  The source's
`HashMap<String, TypeDef>` for `Object` is modelled as an association
list; no claim constructs an `Object` value, whose field order is
unspecified in the source. -/
inductive TypeDef where
  | Simple (name : String)
  | Optional (inner : TypeDef)
  | Array (inner : TypeDef)
  | Enum (variants : List String)
  | Object (fields : List (String × TypeDef))

/-- JSON values (`serde_json::Value`).  Objects are association lists kept
in the insertion order of the building code; the claims read object fields
through `Json.get` or compare single-field objects, so this order never
stands in for `serde_json`'s key-based map equality. -/
inductive Json where
  | null
  | bool (b : Bool)
  | num (n : Int)
  | str (s : String)
  | arr (elements : List Json)
  | obj (entries : List (String × Json))

/-- YAML values (`serde_yaml::Value`), with mappings as association lists
in declaration order and numbers reduced to integers (no claim inspects a
number's value). -/
inductive Yaml where
  | null
  | bool (b : Bool)
  | number (n : Int)
  | string (s : String)
  | sequence (elements : List Yaml)
  | mapping (entries : List (Yaml × Yaml))
  | tagged (tag : String) (value : Yaml)

/-- One step of `TypeDef::from_str` per unit of fuel.  Every recursive call
of the source operates on a strictly shorter string, so the fuel
`length + 1` supplied by `TypeDef.from_str` is never exhausted; theorem
`C10_from_str_total` proves the fuel above that bound is immaterial. -/
def fromStrFuel : Nat → Chars → TypeDef
  | 0, _ => .Simple ""
  | fuel + 1, l =>
    let s := trimChars l
    if s.getLast? = some '?' then
      .Optional (fromStrFuel fuel s.dropLast)
    else if s.getLast? = some ']' ∧ s.dropLast.getLast? = some '[' then
      .Array (fromStrFuel fuel (s.dropLast.dropLast))
    else if '|' ∈ s then
      .Enum ((splitCh '|' s).map (fun v => String.mk (trimChars v)))
    else
      .Simple (String.mk s)

/-- Rust `TypeDef::from_str`: trailing `?` first, then trailing `[]`, then
a `|`-separated enum, otherwise a simple name. -/
def TypeDef.from_str (s : String) : TypeDef :=
  fromStrFuel (s.data.length + 1) s.data

/-- Rust `matches!(v, TypeDef::Optional(_))`. -/
def TypeDef.isOptionalVariant : TypeDef → Bool
  | .Optional _ => true
  | _ => false

mutual

/-- Rust `TypeDef::to_json_schema`. -/
def TypeDef.to_json_schema : TypeDef → Json
  | .Simple s =>
      let type_name :=
        if s = "string" then "string"
        else if s = "integer" then "integer"
        else if s = "float" ∨ s = "number" then "number"
        else if s = "boolean" then "boolean"
        else "string"
      Json.obj [("type", Json.str type_name)]
  | .Optional inner =>
      Json.obj [("anyOf", Json.arr [inner.to_json_schema, Json.obj [("type", Json.str "null")]])]
  | .Array inner =>
      Json.obj [("type", Json.str "array"), ("items", inner.to_json_schema)]
  | .Enum variants =>
      Json.obj [("type", Json.str "string"), ("enum", Json.arr (variants.map Json.str))]
  | .Object fields =>
      Json.obj [("type", Json.str "object"),
        ("properties", Json.obj (lowerFields fields)),
        ("required", Json.arr (((fields.filter
          (fun kv => !kv.2.isOptionalVariant)).map (fun kv => Json.str kv.1))))]

/-- Lowering of an object's fields, one by one (the `properties` map). -/
def lowerFields : List (String × TypeDef) → List (String × Json)
  | [] => []
  | (k, v) :: rest => (k, v.to_json_schema) :: lowerFields rest

end

/-- Rust `serde_json::Value::get(key)` restricted to string keys: a field
lookup on objects, `None` on every other node. -/
def Json.get (j : Json) (key : String) : Option Json :=
  match j with
  | .obj entries => (entries.find? (fun kv => kv.1 == key)).map (fun kv => kv.2)
  | _ => none

/-- Rust `is_optional_schema`: the schema has an `anyOf` array one of whose
members carries `"type": "null"` (the source compares `v.get("type")`
against `Some(&Value::String("null"))`). -/
def is_optional_schema (schema : Json) : Bool :=
  match schema.get "anyOf" with
  | some (.arr xs) =>
      xs.any (fun v =>
        match v.get "type" with
        | some (.str s) => s == "null"
        | _ => false)
  | _ => false

/-- Abbreviated Rust `Debug` rendering of a YAML node, used only inside the
unsupported-kind error message; no claim depends on the exact text. -/
def yamlDebug : Yaml → String
  | .null => "Null"
  | .bool b => if b then "Bool(true)" else "Bool(false)"
  | .number n => "Number(" ++ toString n ++ ")"
  | .string s => "String(" ++ s ++ ")"
  | .sequence _ => "Sequence"
  | .mapping _ => "Mapping"
  | .tagged t _ => "Tagged(" ++ t ++ ")"

mutual

/-- Rust `parse_schema_value`: strings go through the shorthand parser,
mappings build an object schema field by field, one-element sequences
build an array schema, and every other node kind is rejected. -/
def parse_schema_value : Yaml → Except PromptError Json
  | .string s => .ok ((TypeDef.from_str s).to_json_schema)
  | .mapping m =>
      match parse_fields m with
      | .error e => .error e
      | .ok pr =>
          .ok (Json.obj [("type", Json.str "object"),
            ("properties", Json.obj pr.1),
            ("required", Json.arr pr.2)])
  | .sequence [a] =>
      match parse_schema_value a with
      | .error e => .error e
      | .ok item => .ok (Json.obj [("type", Json.str "array"), ("items", item)])
  | .sequence _ =>
      .error (.invalidSchema "Array schema must have exactly one element defining the item type")
  | other =>
      .error (.invalidSchema ("Unsupported YAML type: " ++ yamlDebug other))

/-- The mapping loop of `parse_schema_value`: returns the `properties`
entries and the `required` names, in declaration order, failing on the
first non-string key or ill-formed field value. -/
def parse_fields : List (Yaml × Yaml) → Except PromptError (List (String × Json) × List Json)
  | [] => .ok ([], [])
  | (k, v) :: rest =>
      match k with
      | .string key =>
          (match parse_schema_value v with
           | .error e => .error e
           | .ok prop =>
               match parse_fields rest with
               | .error e => .error e
               | .ok pr =>
                   .ok ((key, prop) :: pr.1,
                     if is_optional_schema prop then pr.2 else Json.str key :: pr.2))
      | _ => .error (PromptError.invalidSchema "Non-string key in schema")

end

/-- Rust `parse_schema`: an absent block lowers to the empty schema. -/
def parse_schema : Option Yaml → Except PromptError Json
  | none => .ok (Json.obj [])
  | some value => parse_schema_value value

/-- The delimiter test of the splitter: `line.trim().starts_with("---")`. -/
def hasDelim (line : Chars) : Bool :=
  ['-', '-', '-'].isPrefixOf (trimChars line)

/-- Rust `split_frontmatter`: line 0 must pass the delimiter test, the
close index is the first later line passing it; frontmatter is the lines
strictly between them and body is everything after the close line, both
rejoined with line feeds. -/
def split_frontmatter (content : String) : Except PromptError (String × String) :=
  match rustLines content.data with
  | [] => .error (.invalidSchema "Missing frontmatter delimiter (---) at start of file")
  | first :: rest =>
    if hasDelim first then
      match rest.findIdx? hasDelim with
      | some i =>
          .ok (String.mk (joinNL (rest.take i)), String.mk (joinNL (rest.drop (i + 1))))
      | none => .error (.invalidSchema "Missing closing frontmatter delimiter (---)")
    else
      .error (.invalidSchema "Missing frontmatter delimiter (---) at start of file")

/-- The `Frontmatter` record the YAML header decodes into. -/
structure Frontmatter where
  name : String
  client : Option String
  prompt_type : Option String
  inputs : Option Yaml
  output : Option Yaml
  tools : Option (List String)
  max_turns : Option Nat
  «extends» : Option String

/-- Rust `serde_yaml::Value::as_str`. -/
def Yaml.as_str : Yaml → Option String
  | .string s => some s
  | _ => none

/-- Field lookup in a YAML mapping by string key (first occurrence). -/
def yamlLookup (entries : List (Yaml × Yaml)) (key : String) : Option Yaml :=
  (entries.find? (fun kv => kv.1.as_str == some key)).map (fun kv => kv.2)

/-- Decoding of a YAML node into a Rust `String`. -/
def decodeString : Yaml → Except String String
  | .string s => .ok s
  | _ => .error "invalid type: expected a string"

/-- Decoding of a YAML node into a Rust `Vec<String>`. -/
def decodeStringList : Yaml → Except String (List String)
  | .sequence xs => xs.mapM decodeString
  | _ => .error "invalid type: expected a sequence"

/-- Decoding of a YAML node into a Rust `u32`, with the range check the
machine type imposes. -/
def decodeU32 : Yaml → Except String Nat
  | .number n => if 0 ≤ n ∧ n < 4294967296 then .ok n.toNat else .error "invalid value: integer out of range"
  | _ => .error "invalid type: expected an integer"

/-- Serde semantics of an `Option` field: absent or YAML-null decodes to
`none`, anything else must decode with the field's decoder. -/
def decodeOptField {α : Type} (entries : List (Yaml × Yaml)) (key : String)
    (dec : Yaml → Except String α) : Except String (Option α) :=
  match yamlLookup entries key with
  | none => .ok none
  | some .null => .ok none
  | some v => (dec v).map some

/-- Deserialization of the `Frontmatter` struct from a parsed YAML value,
modelling the derived serde implementation declared in the source: `name`
is a required `String` (absence is a decoding error with serde's
missing-field message, surfaced by the caller as a `YamlParse` error),
every other field is optional, the YAML key for `prompt_type` is `type`,
and unknown keys are ignored. -/
def decodeFrontmatter (v : Yaml) : Except String Frontmatter :=
  match v with
  | .mapping entries => do
      let name ←
        match yamlLookup entries "name" with
        | none => Except.error "missing field `name`"
        | some nv => decodeString nv
      let client ← decodeOptField entries "client" decodeString
      let prompt_type ← decodeOptField entries "type" decodeString
      let inputs ← decodeOptField entries "inputs" (fun y => Except.ok y)
      let output ← decodeOptField entries "output" (fun y => Except.ok y)
      let tools ← decodeOptField entries "tools" decodeStringList
      let max_turns ← decodeOptField entries "max_turns" decodeU32
      let ext ← decodeOptField entries "extends" decodeString
      Except.ok ⟨name, client, prompt_type, inputs, output, tools, max_turns, ext⟩
  | _ => Except.error "invalid type: expected a YAML mapping"

/-- The compiled, immutable `PromptDefinition` record. -/
structure PromptDefinition where
  name : String
  client : String
  prompt_type : String
  inputs_schema : Json
  output_schema : Json
  tools : List String
  max_turns : Nat
  body_template : String
  «extends» : Option String

/-- The tail of `parse_prompt_file` after YAML decoding: the empty-name
check, schema compilation for `inputs` and `output`, and assembly of the
definition with the documented defaults. -/
def buildDefinition (fm : Frontmatter) (body : String) : Except PromptError PromptDefinition :=
  if fm.name = "" then .error (.missingField "name")
  else
    match parse_schema fm.inputs with
    | .error e => .error e
    | .ok inputs_schema =>
        match parse_schema fm.output with
        | .error e => .error e
        | .ok output_schema =>
            .ok ⟨fm.name,
              fm.client.getD "anthropic/claude-sonnet",
              fm.prompt_type.getD "llm",
              inputs_schema,
              output_schema,
              fm.tools.getD [],
              fm.max_turns.getD 10,
              body,
              fm.«extends»⟩

/-- Rust `parse_prompt_file`, parameterized by the external YAML text
parser (`serde_yaml::from_str` up to its value representation).  Text-level
parse failures and struct-decoding failures both surface as `YamlParse`
with line 0, exactly as in the source's error mapping. -/
def parse_prompt_file (yamlOfText : String → Except String Yaml) (content : String) :
    Except PromptError PromptDefinition :=
  match split_frontmatter content with
  | .error e => .error e
  | .ok (frontmatter_str, body) =>
    match yamlOfText frontmatter_str >>= decodeFrontmatter with
    | .error msg => .error (.yamlParse 0 msg)
    | .ok fm => buildDefinition fm body

/-- One diagnostic of the external JSON-Schema evaluator: the instance
path and the human-readable message its display form prints. -/
structure Diagnostic where
  instance_path : String
  message : String

/-- The external jsonschema crate at the boundary the two validation entry
points share: schema compilation, which may fail with a message, and the
full ordered diagnostic list of a compiled schema against an instance
(the iterator returned by `validate` is non-empty exactly when the
instance does not conform). -/
structure SchemaEvaluator where
  compile : Json → Except String Unit
  diagnostics : Json → Json → List Diagnostic

/-- Rust `validate_json`: compile, then collapse all diagnostics into one
`ValidationFailed` message joined with a comma. -/
def validate_json (E : SchemaEvaluator) (schema data : Json) : Except PromptError Unit :=
  match E.compile schema with
  | .error e => .error (.invalidSchema e)
  | .ok _ =>
    match E.diagnostics schema data with
    | [] => .ok ()
    | errs => .error (.validationFailed (String.intercalate ", " (errs.map (fun e => e.message))))

/-- Rust `validate_with_details`: compile, then return every diagnostic as
a formatted `path: .., error: ..` line, with no truncation. -/
def validate_with_details (E : SchemaEvaluator) (schema data : Json) :
    Except PromptError (List String) :=
  match E.compile schema with
  | .error e => .error (.invalidSchema e)
  | .ok _ =>
    .ok ((E.diagnostics schema data).map
      (fun e => "path: " ++ e.instance_path ++ ", error: " ++ e.message))

/-- Characterization used by claim C1, re-derived structurally from the
lowered schemas as the claim requires: the names (in declaration order) of
the mapping's fields whose lowered schema is not an anyOf containing a
null-typed branch. -/
def requiredBySchemaTest (m : List (Yaml × Yaml)) : List Json :=
  m.filterMap (fun kv =>
    match kv.1.as_str with
    | none => none
    | some k =>
        match parse_schema_value kv.2 with
        | .ok prop => if is_optional_schema prop then none else some (Json.str k)
        | .error _ => none)

/-- Recognizer for an `InvalidSchema` outcome of the schema compiler. -/
def resultIsInvalidSchema : Except PromptError Json → Bool
  | .error (.invalidSchema _) => true
  | _ => false

/-- The example document of the specification (section 8). -/
def exampleDoc : String :=
  "---\nname: SimplePrompt\nclient: anthropic/claude-sonnet\ninputs:\n  query: string\noutput:\n  result: string\n---\nAnswer this: \x7b\x7b query \x7d\x7d\n"

/-- The YAML value of the example document's frontmatter block. -/
def exampleFrontmatterYaml : Yaml :=
  .mapping [(.string "name", .string "SimplePrompt"),
    (.string "client", .string "anthropic/claude-sonnet"),
    (.string "inputs", .mapping [(.string "query", .string "string")]),
    (.string "output", .mapping [(.string "result", .string "string")])]

/-! ### Helper lemmas about the character-level string model -/

theorem splitCh_nil (sep : Char) : splitCh sep [] = [[]] := rfl

theorem splitCh_cons (sep c : Char) (l : Chars) :
    splitCh sep (c :: l) =
      if c = sep then [] :: splitCh sep l
      else (c :: (splitCh sep l).headI) :: (splitCh sep l).tail := rfl

theorem splitCh_ne_nil (sep : Char) (l : Chars) : splitCh sep l ≠ [] := by
  induction l with
  | nil => simp [splitCh_nil]
  | cons c l ih =>
    rw [splitCh_cons]
    split <;> simp

theorem splitCh_append_cons (sep : Char) (a z : Chars) :
    splitCh sep (a ++ sep :: z) = splitCh sep a ++ splitCh sep z := by
  induction a with
  | nil => simp [splitCh_cons, splitCh_nil]
  | cons c a ih =>
    obtain ⟨p, ps, hps⟩ := List.exists_cons_of_ne_nil (splitCh_ne_nil sep a)
    by_cases hc : c = sep
    · simp [splitCh_cons, hc, ih]
    · simp [splitCh_cons, hc, ih, hps]

theorem intercalate_single (sep x : Chars) : List.intercalate sep [x] = x := by
  simp [List.intercalate]

theorem intercalate_cons2 (sep x y : Chars) (t : List Chars) :
    List.intercalate sep (x :: y :: t) = x ++ sep ++ List.intercalate sep (y :: t) := by
  simp [List.intercalate, List.intersperse_cons₂]

theorem intercalate_splitCh (sep : Char) (l : Chars) :
    List.intercalate [sep] (splitCh sep l) = l := by
  induction l with
  | nil => simp [splitCh_nil, intercalate_single]
  | cons c l ih =>
    obtain ⟨p, ps, hps⟩ := List.exists_cons_of_ne_nil (splitCh_ne_nil sep l)
    by_cases hc : c = sep
    · rw [splitCh_cons, if_pos hc, hps, intercalate_cons2, ← hps, ih, hc]
      rfl
    · rw [splitCh_cons, if_neg hc, hps]
      simp only [List.headI, List.tail_cons]
      cases ps with
      | nil =>
        rw [hps, intercalate_single] at ih
        simp [intercalate_single, ih]
      | cons q qs =>
        rw [hps, intercalate_cons2] at ih
        rw [intercalate_cons2]
        exact congrArg (List.cons c) ih

theorem mem_of_mem_splitCh {sep : Char} {l : Chars} :
    ∀ p ∈ splitCh sep l, ∀ x ∈ p, x ∈ l := by
  induction l with
  | nil =>
    intro p hp x hx
    rw [splitCh_nil] at hp
    simp at hp
    subst hp
    simp at hx
  | cons c l ih =>
    intro p hp x hx
    obtain ⟨q, qs, hqs⟩ := List.exists_cons_of_ne_nil (splitCh_ne_nil sep l)
    by_cases hc : c = sep
    · rw [splitCh_cons, if_pos hc] at hp
      rcases List.mem_cons.mp hp with h | h
      · subst h
        simp at hx
      · exact List.mem_cons_of_mem _ (ih p h x hx)
    · rw [splitCh_cons, if_neg hc, hqs] at hp
      simp only [List.headI, List.tail_cons] at hp
      rcases List.mem_cons.mp hp with h | h
      · subst h
        rcases List.mem_cons.mp hx with h' | h'
        · exact h' ▸ List.mem_cons_self c l
        · exact List.mem_cons_of_mem _
            (ih q (by rw [hqs]; exact List.mem_cons_self q qs) x h')
      · exact List.mem_cons_of_mem _
          (ih p (by rw [hqs]; exact List.mem_cons_of_mem _ h) x hx)

theorem splitCh_getLastD_ne_nil {sep : Char} : ∀ {l : Chars},
    l.getLast? ≠ some sep → l ≠ [] → (splitCh sep l).getLastD [] ≠ [] := by
  intro l
  induction l with
  | nil =>
    intro _ hne
    exact absurd rfl hne
  | cons c l ih =>
    intro h _
    cases l with
    | nil =>
      have hc : ¬ c = sep := by
        intro hc
        exact h (by simp [hc])
      simp [splitCh_cons, splitCh_nil, hc, List.headI]
    | cons c' t =>
      have h' : (c' :: t).getLast? ≠ some sep := by
        rwa [List.getLast?_cons_cons] at h
      have ihx := ih h' (by simp)
      obtain ⟨p, ps, hps⟩ := List.exists_cons_of_ne_nil (splitCh_ne_nil sep (c' :: t))
      rw [hps, List.getLastD_cons] at ihx
      by_cases hc : c = sep
      · rw [splitCh_cons, if_pos hc, hps, List.getLastD_cons, List.getLastD_cons]
        exact ihx
      · rw [splitCh_cons, if_neg hc, hps]
        simp only [List.headI, List.tail_cons]
        rw [List.getLastD_cons]
        cases ps with
        | nil => simp
        | cons q qs =>
          obtain ⟨g, hg⟩ := Option.ne_none_iff_exists'.mp
            (fun h0 => (List.cons_ne_nil q qs) (List.getLast?_eq_none_iff.mp h0))
          rw [List.getLastD_eq_getLast?, hg, Option.getD_some] at ihx ⊢
          exact ihx

theorem length_dropWhile_le (p : Char → Bool) (l : Chars) :
    (l.dropWhile p).length ≤ l.length := by
  induction l with
  | nil => simp
  | cons c l ih =>
    rw [List.dropWhile_cons]
    split
    · exact le_trans ih (Nat.le_succ _)
    · simp

theorem trimChars_length_le (l : Chars) : (trimChars l).length ≤ l.length := by
  unfold trimChars
  calc ((l.dropWhile Char.isWhitespace).reverse.dropWhile Char.isWhitespace).reverse.length
      = ((l.dropWhile Char.isWhitespace).reverse.dropWhile Char.isWhitespace).length := by
        rw [List.length_reverse]
    _ ≤ (l.dropWhile Char.isWhitespace).reverse.length := length_dropWhile_le _ _
    _ = (l.dropWhile Char.isWhitespace).length := by rw [List.length_reverse]
    _ ≤ l.length := length_dropWhile_le _ _

theorem dropWhile_idem (p : Char → Bool) (l : Chars) :
    ((l.dropWhile p).dropWhile p) = l.dropWhile p := by
  induction l with
  | nil => simp
  | cons c l ih =>
    rw [List.dropWhile_cons]
    split
    · exact ih
    · rw [List.dropWhile_cons, if_neg (by assumption)]

theorem trimChars_concat {c : Char} (hc : c.isWhitespace = false) (l : Chars) :
    trimChars (l ++ [c]) = l.dropWhile Char.isWhitespace ++ [c] := by
  unfold trimChars
  have h1 : (l ++ [c]).dropWhile Char.isWhitespace = l.dropWhile Char.isWhitespace ++ [c] := by
    rw [List.dropWhile_append]
    split
    · next hemp =>
      rw [List.isEmpty_iff] at hemp
      rw [hemp, List.nil_append, List.dropWhile_cons, hc]
      simp
    · rfl
  rw [h1, List.reverse_append, List.reverse_singleton, List.singleton_append,
    List.dropWhile_cons, hc]
  simp

theorem trimChars_dropWhile (l : Chars) :
    trimChars (l.dropWhile Char.isWhitespace) = trimChars l := by
  unfold trimChars
  rw [dropWhile_idem]

theorem fromStrFuel_congr : ∀ (f g : Nat) (l : Chars),
    l.length < f → l.length < g → fromStrFuel f l = fromStrFuel g l := by
  intro f
  induction f with
  | zero => intro g l hf; omega
  | succ f ih =>
    intro g l hf hg
    cases g with
    | zero => omega
    | succ g =>
      have htrim : (trimChars l).length ≤ l.length := trimChars_length_le l
      simp only [fromStrFuel]
      split
      · next hq =>
        have hne : trimChars l ≠ [] := by
          intro h0
          rw [h0] at hq
          simp at hq
        have hlen : (trimChars l).dropLast.length < f ∧ (trimChars l).dropLast.length < g := by
          rw [List.length_dropLast]
          have := List.length_pos.mpr hne
          omega
        rw [ih g _ hlen.1 hlen.2]
      · split
        · next hb =>
          have hne2 : (trimChars l).dropLast ≠ [] := by
            intro h0
            rw [h0] at hb
            simp at hb
          have hlen : (trimChars l).dropLast.dropLast.length < f ∧
              (trimChars l).dropLast.dropLast.length < g := by
            rw [List.length_dropLast, List.length_dropLast]
            have h2 := List.length_pos.mpr hne2
            rw [List.length_dropLast] at h2
            omega
          rw [ih g _ hlen.1 hlen.2]
        · rfl

theorem stripCR_of_not_mem {l : Chars} (h : '\r' ∉ l) : stripCR l = l := by
  cases l with
  | nil => simp [stripCR]
  | cons a t =>
    rw [stripCR, if_neg]
    intro heq
    apply h
    rw [List.getLastD_eq_getLast?, List.getLast?_eq_getLast (a :: t) (by simp)] at heq
    simp only [Option.getD_some] at heq
    exact heq ▸ List.getLast_mem (by simp)

theorem findIdx?_append_cons_true {p : Chars → Bool} {y : Chars} (A B : List Chars)
    (hA : ∀ x ∈ A, p x = false) (hy : p y = true) :
    List.findIdx? p (A ++ y :: B) = some A.length := by
  have aux : ∀ (A' : List Chars) (i : Nat), (∀ x ∈ A', p x = false) →
      List.findIdx? p (A' ++ y :: B) i = some (i + A'.length) := by
    intro A'
    induction A' with
    | nil =>
      intro i _
      simp [List.findIdx?_cons, hy]
    | cons a A' ih =>
      intro i hA'
      rw [List.cons_append, List.findIdx?_cons, if_neg (by rw [hA' a (by simp)]; simp),
        ih (i + 1) (fun x hx => hA' x (by simp [hx]))]
      simp only [List.length_cons]
      congr 1
      omega
  have := aux A 0 hA
  rwa [Nat.zero_add] at this

theorem getLastD_append_right {A B : List Chars} (hB : B ≠ []) (d : Chars) :
    (A ++ B).getLastD d = B.getLastD d := by
  rw [List.getLastD_eq_getLast?, List.getLastD_eq_getLast?, List.getLast?_append]
  obtain ⟨g, hg⟩ := Option.ne_none_iff_exists'.mp (fun h => hB (List.getLast?_eq_none_iff.mp h))
  rw [hg]
  rfl

theorem dropLast_append_getLastD {l : List Chars} (hl : l ≠ []) (d : Chars) :
    l.dropLast ++ [l.getLastD d] = l := by
  rw [List.getLastD_eq_getLast?, List.getLast?_eq_getLast l hl]
  exact List.dropLast_append_getLast hl

theorem string_data_eq_nil {s : String} : s.data = [] ↔ s = "" := by
  constructor
  · intro h
    have hs : String.mk s.data = s := rfl
    rw [← hs, h]
  · intro h
    rw [h]

theorem fromStrFuel_succ (fuel : Nat) (l : Chars) :
    fromStrFuel (fuel + 1) l =
      if (trimChars l).getLast? = some '?' then
        .Optional (fromStrFuel fuel (trimChars l).dropLast)
      else if (trimChars l).getLast? = some ']' ∧ (trimChars l).dropLast.getLast? = some '[' then
        .Array (fromStrFuel fuel ((trimChars l).dropLast.dropLast))
      else if '|' ∈ trimChars l then
        .Enum ((splitCh '|' (trimChars l)).map (fun v => String.mk (trimChars v)))
      else .Simple (String.mk (trimChars l)) := rfl

theorem fromStrFuel_dropWhile (l : Chars) (f : Nat) :
    fromStrFuel (f + 1) (l.dropWhile Char.isWhitespace) = fromStrFuel (f + 1) l := by
  rw [fromStrFuel_succ, fromStrFuel_succ, trimChars_dropWhile]

theorem fromStrFuel_concat_query (l : Chars) :
    fromStrFuel (l.length + 1 + 1) (l ++ ['?']) = .Optional (fromStrFuel (l.length + 1) l) := by
  rw [fromStrFuel_succ]
  rw [trimChars_concat (by decide : ('?' : Char).isWhitespace = false) l]
  rw [List.getLast?_concat, if_pos rfl, List.dropLast_concat]
  exact congrArg TypeDef.Optional (fromStrFuel_dropWhile l l.length)

theorem map_stripCR_of_no_cr {L : List Chars} (h : ∀ p ∈ L, '\r' ∉ p) :
    L.map stripCR = L := by
  have heq : L.map stripCR = L.map id :=
    List.map_congr_left (fun p hp => stripCR_of_not_mem (h p hp))
  rw [heq, List.map_id]

theorem rustLines_eq (s : Chars) :
    rustLines s = (splitCh '\n' s).dropLast.map stripCR ++
      (if (splitCh '\n' s).getLastD [] = [] then [] else [(splitCh '\n' s).getLastD []]) := rfl

theorem joinNL_splitCh (l : Chars) : joinNL (splitCh '\n' l) = l :=
  intercalate_splitCh '\n' l

theorem split_frontmatter_of_lines (content : String) (mid tail : List Chars)
    (hrl : rustLines content.data = ['-', '-', '-'] :: (mid ++ ['-', '-', '-'] :: tail))
    (hmid : ∀ l ∈ mid, hasDelim l = false) :
    split_frontmatter content = .ok (String.mk (joinNL mid), String.mk (joinNL tail)) := by
  have hdelim3 : hasDelim ['-', '-', '-'] = true := by decide
  have hfind : (mid ++ ['-', '-', '-'] :: tail).findIdx? hasDelim = some mid.length :=
    findIdx?_append_cons_true mid tail hmid hdelim3
  have htake : (mid ++ ['-', '-', '-'] :: tail).take mid.length = mid :=
    List.take_left mid (['-', '-', '-'] :: tail)
  have hdrop : (mid ++ ['-', '-', '-'] :: tail).drop (mid.length + 1) = tail := by
    have h1 : mid ++ ['-', '-', '-'] :: tail = (mid ++ [['-', '-', '-']]) ++ tail := by simp
    have h2 : mid.length + 1 = (mid ++ [['-', '-', '-']]).length := by simp
    rw [h1, h2]
    exact List.drop_left _ _
  simp only [split_frontmatter, hrl, hdelim3, if_true, hfind, htake, hdrop]

/-! ### The claims -/

/-- C2 (counterexample).  The round-trip fails when the body ends with a
newline: Rust's `lines()` drops the final empty piece, so a body "x\n" is
recovered as "x".  The frontmatter "a" contains no line trimming to a
delimiter, so the original claim's hypothesis holds at this input. -/
theorem C2_roundtrip_counterexample :
    split_frontmatter ("---\n" ++ "a" ++ "\n---\n" ++ "x\n") = .ok ("a", "x") ∧
    ¬ (split_frontmatter ("---\n" ++ "a" ++ "\n---\n" ++ "x\n") = .ok ("a", "x\n")) := by
  refine ⟨rfl, fun h => ?_⟩
  have h0 : (Except.ok ("a", "x") : Except PromptError (String × String)) = .ok ("a", "x\n") := by
    rw [show split_frontmatter ("---\n" ++ "a" ++ "\n---\n" ++ "x\n")
        = Except.ok ("a", "x") from rfl] at h
    exact h
  have h3 : ("x" : String) = "x\n" := congrArg Prod.snd (Except.ok.inj h0)
  exact absurd h3 (by decide)

/-- C2 (amended).  The round-trip holds for every frontmatter containing
no carriage return and no line whose trimmed form starts with "---", and
every body containing no carriage return and not ending with a newline:
`split_frontmatter ("---\n" ++ fm ++ "\n---\n" ++ b)` recovers (fm, b)
exactly. -/
theorem C2_roundtrip_amended (fm b : String)
    (hfmcr : '\r' ∉ fm.data)
    (hfmlines : ∀ l ∈ splitCh '\n' fm.data, hasDelim l = false)
    (hbcr : '\r' ∉ b.data)
    (hbnl : b.data.getLast? ≠ some '\n') :
    split_frontmatter ("---\n" ++ fm ++ "\n---\n" ++ b) = .ok (fm, b) := by
  have hdoc : ("---\n" ++ fm ++ "\n---\n" ++ b).data
      = ['-', '-', '-'] ++ '\n' :: (fm.data ++ '\n' :: (['-', '-', '-'] ++ '\n' :: b.data)) := by
    rw [String.data_append, String.data_append, String.data_append]
    simp [List.append_assoc]
  have hsplit : splitCh '\n' ("---\n" ++ fm ++ "\n---\n" ++ b).data
      = ['-', '-', '-'] :: (splitCh '\n' fm.data ++ ['-', '-', '-'] :: splitCh '\n' b.data) := by
    rw [hdoc, splitCh_append_cons, splitCh_append_cons, splitCh_append_cons]
    rfl
  have hfmpieces : ∀ p ∈ splitCh '\n' fm.data, '\r' ∉ p := by
    intro p hp hmem
    exact hfmcr (mem_of_mem_splitCh p hp '\r' hmem)
  have hmkfm : String.mk fm.data = fm := rfl
  by_cases hbe : b.data = []
  · -- empty body: the final empty piece is dropped and rejoined as "".
    have hb0 : b = "" := string_data_eq_nil.mp hbe
    have hparts : splitCh '\n' ("---\n" ++ fm ++ "\n---\n" ++ b).data
        = (['-', '-', '-'] :: (splitCh '\n' fm.data ++ [['-', '-', '-']])) ++ [[]] := by
      rw [hsplit, hbe]
      simp [splitCh_nil]
    have hrl : rustLines ("---\n" ++ fm ++ "\n---\n" ++ b).data
        = ['-', '-', '-'] :: (splitCh '\n' fm.data ++ ['-', '-', '-'] :: []) := by
      rw [rustLines_eq, hparts, List.dropLast_concat, List.getLastD_eq_getLast?,
        List.getLast?_concat, Option.getD_some, if_pos rfl, List.append_nil]
      apply map_stripCR_of_no_cr
      intro p hp
      rcases List.mem_cons.mp hp with h | h
      · subst h; decide
      · rcases List.mem_append.mp h with h' | h'
        · exact hfmpieces p h'
        · simp only [List.mem_singleton] at h'
          subst h'; decide
    rw [split_frontmatter_of_lines _ _ _ hrl hfmlines, joinNL_splitCh, hmkfm]
    rw [hb0]
    rfl
  · -- non-empty body: the final piece is kept, and the pieces rejoin to b.
    have hSBne : splitCh '\n' b.data ≠ [] := splitCh_ne_nil '\n' b.data
    have hlast : (splitCh '\n' b.data).getLastD [] ≠ [] := splitCh_getLastD_ne_nil hbnl hbe
    have hbpieces : ∀ p ∈ (splitCh '\n' b.data).dropLast, '\r' ∉ p := by
      intro p hp hmem
      exact hbcr (mem_of_mem_splitCh p (List.mem_of_mem_dropLast hp) '\r' hmem)
    have hparts : splitCh '\n' ("---\n" ++ fm ++ "\n---\n" ++ b).data
        = (['-', '-', '-'] :: (splitCh '\n' fm.data ++ [['-', '-', '-']])) ++ splitCh '\n' b.data := by
      rw [hsplit]
      simp
    have hrl : rustLines ("---\n" ++ fm ++ "\n---\n" ++ b).data
        = ['-', '-', '-'] :: (splitCh '\n' fm.data ++ ['-', '-', '-'] :: splitCh '\n' b.data) := by
      rw [rustLines_eq, hparts, List.dropLast_append_of_ne_nil _ hSBne,
        getLastD_append_right hSBne, if_neg hlast, List.map_append]
      have hA : (['-', '-', '-'] :: (splitCh '\n' fm.data ++ [['-', '-', '-']])).map stripCR
          = ['-', '-', '-'] :: (splitCh '\n' fm.data ++ [['-', '-', '-']]) := by
        apply map_stripCR_of_no_cr
        intro p hp
        rcases List.mem_cons.mp hp with h | h
        · subst h; decide
        · rcases List.mem_append.mp h with h' | h'
          · exact hfmpieces p h'
          · simp only [List.mem_singleton] at h'
            subst h'; decide
      rw [hA, map_stripCR_of_no_cr hbpieces, List.append_assoc,
        dropLast_append_getLastD hSBne]
      simp
    rw [split_frontmatter_of_lines _ _ _ hrl hfmlines, joinNL_splitCh, hmkfm, joinNL_splitCh]

/-- Witness for C2 (amended): the round-trip evaluated at frontmatter "a"
and body "x". -/
theorem C2_roundtrip_amended_witness :
    split_frontmatter ("---\n" ++ "a" ++ "\n---\n" ++ "x") = .ok ("a", "x") :=
  C2_roundtrip_amended "a" "x" (by decide) (by decide) (by decide) (by decide)

/-- C3 (counterexample).  A first line trimming to "----" (not exactly
"---") is accepted: the splitter only tests `starts_with("---")` after
trimming, so this document splits successfully instead of being
rejected. -/
theorem C3_exact_delimiter_counterexample :
    split_frontmatter "----\nx\n---\ny" = .ok ("x", "y") := rfl

/-- C3 (amended).  `split_frontmatter` succeeds exactly when the first
line's trimmed content starts with "---" (not necessarily equals it) and
some later line's trimmed content also starts with "---". -/
theorem C3_delimiter_acceptance_amended (content : String) :
    (∃ r, split_frontmatter content = .ok r) ↔
    (∃ first rest, rustLines content.data = first :: rest ∧ hasDelim first = true ∧
      ∃ l ∈ rest, hasDelim l = true) := by
  constructor
  · rintro ⟨r, hr⟩
    cases hls : rustLines content.data with
    | nil =>
      simp only [split_frontmatter, hls] at hr
      simp at hr
    | cons first rest =>
      simp only [split_frontmatter, hls] at hr
      by_cases hd : hasDelim first = true
      · refine ⟨first, rest, rfl, hd, ?_⟩
        rw [if_pos hd] at hr
        cases hfind : rest.findIdx? hasDelim with
        | none => rw [hfind] at hr; simp at hr
        | some i =>
          by_contra hno
          push_neg at hno
          have hnone : rest.findIdx? hasDelim = none :=
            List.findIdx?_eq_none_iff.mpr (fun x hx => by simpa using hno x hx)
          rw [hnone] at hfind
          simp at hfind
      · rw [if_neg hd] at hr
        simp at hr
  · rintro ⟨first, rest, hls, hd, l, hl, hdl⟩
    simp only [split_frontmatter, hls, if_pos hd]
    cases hfind : rest.findIdx? hasDelim with
    | none =>
      have := List.findIdx?_eq_none_iff.mp hfind l hl
      rw [hdl] at this
      simp at this
    | some i => exact ⟨_, rfl⟩

/-- Witness for C3 (amended): acceptance derived through the
characterization at the concrete document "---\na\n---\nb". -/
theorem C3_delimiter_acceptance_amended_witness :
    ∃ r, split_frontmatter "---\na\n---\nb" = .ok r :=
  (C3_delimiter_acceptance_amended "---\na\n---\nb").mpr
    ⟨['-', '-', '-'], [['a'], ['-', '-', '-'], ['b']], by decide, by decide,
      ['-', '-', '-'], by decide, by decide⟩

/-- C9.  A document with no lines or whose first line fails the delimiter
test fails with the missing-opening-delimiter `InvalidSchema` message, and
one whose first line passes but with no later line passing fails with the
missing-closing-delimiter message; in both cases an error is returned, so
the file is never silently treated as body. -/
theorem C9_missing_delimiters :
    (∀ content : String, rustLines content.data = [] →
      split_frontmatter content =
        .error (.invalidSchema "Missing frontmatter delimiter (---) at start of file")) ∧
    (∀ (content : String) (first : Chars) (rest : List Chars),
      rustLines content.data = first :: rest → hasDelim first = false →
      split_frontmatter content =
        .error (.invalidSchema "Missing frontmatter delimiter (---) at start of file")) ∧
    (∀ (content : String) (first : Chars) (rest : List Chars),
      rustLines content.data = first :: rest → hasDelim first = true →
      (∀ l ∈ rest, hasDelim l = false) →
      split_frontmatter content =
        .error (.invalidSchema "Missing closing frontmatter delimiter (---)")) := by
  refine ⟨?_, ?_, ?_⟩
  · intro content h
    simp only [split_frontmatter, h]
  · intro content first rest h hd
    simp only [split_frontmatter, h, hd]
    simp
  · intro content first rest h hd hnone
    simp only [split_frontmatter, h, if_pos hd, List.findIdx?_eq_none_iff.mpr hnone]

/-- Witness for C9: the three failure clauses evaluated at the concrete
documents "", "x" and "---\nx". -/
theorem C9_missing_delimiters_witness :
    split_frontmatter "" =
      .error (.invalidSchema "Missing frontmatter delimiter (---) at start of file") ∧
    split_frontmatter "x" =
      .error (.invalidSchema "Missing frontmatter delimiter (---) at start of file") ∧
    split_frontmatter "---\nx" =
      .error (.invalidSchema "Missing closing frontmatter delimiter (---)") :=
  ⟨C9_missing_delimiters.1 "" rfl,
   C9_missing_delimiters.2.1 "x" ['x'] [] rfl (by decide),
   C9_missing_delimiters.2.2 "---\nx" ['-', '-', '-'] [['x']] rfl (by decide) (by decide)⟩

/-- C5.  For every string s, `from_str (s ++ "?")` yields
`Optional (from_str s)` — the trailing `?` is examined before the `[]`
suffix and before enum-splitting on `|`, as the universal quantification
over s shows — and lowering the result produces the anyOf/null union whose
first branch is the lowering of `from_str s`. -/
theorem C5_optional_suffix (s : String) :
    TypeDef.from_str (s ++ "?") = .Optional (TypeDef.from_str s) ∧
    (TypeDef.from_str (s ++ "?")).to_json_schema =
      Json.obj [("anyOf",
        Json.arr [(TypeDef.from_str s).to_json_schema, Json.obj [("type", Json.str "null")]])] := by
  have hdata : (s ++ "?").data = s.data ++ ['?'] := by
    rw [String.data_append]
  have hmain : TypeDef.from_str (s ++ "?") = .Optional (TypeDef.from_str s) := by
    show fromStrFuel ((s ++ "?").data.length + 1) (s ++ "?").data = _
    rw [hdata]
    have hlen : (s.data ++ ['?']).length = s.data.length + 1 := by simp
    rw [hlen]
    exact fromStrFuel_concat_query s.data
  refine ⟨hmain, ?_⟩
  rw [hmain]
  rfl

/-- C10.  `TypeDef::from_str` is total: it is a function returning a
`TypeDef` for every input, any fuel above the `length + 1` bound computes
the same result (every recursive call drops at least one character, so the
recursion terminates within that bound), and the degenerate inputs `""`,
`"?"`, `"[]"` and `"|"` all produce values rather than errors. -/
theorem C10_from_str_total :
    (∀ s : String, ∃ t : TypeDef, TypeDef.from_str s = t) ∧
    (∀ (f : Nat) (s : String), s.data.length < f →
      fromStrFuel f s.data = TypeDef.from_str s) ∧
    TypeDef.from_str "" = .Simple "" ∧
    TypeDef.from_str "?" = .Optional (.Simple "") ∧
    TypeDef.from_str "[]" = .Array (.Simple "") ∧
    TypeDef.from_str "|" = .Enum ["", ""] := by
  refine ⟨fun s => ⟨TypeDef.from_str s, rfl⟩, ?_, rfl, rfl, rfl, rfl⟩
  intro f s hf
  exact fromStrFuel_congr f (s.data.length + 1) s.data hf (Nat.lt_succ_self _)

/-- Witness for C10: the fuel-irrelevance clause evaluated at fuel 3 on
the two-character input "ab". -/
theorem C10_from_str_total_witness :
    "ab".data.length < 3 ∧ fromStrFuel 3 "ab".data = TypeDef.from_str "ab" :=
  ⟨by decide, C10_from_str_total.2.1 3 "ab" (by decide)⟩

theorem parse_fields_required (m : List (Yaml × Yaml)) :
    ∀ pr, parse_fields m = .ok pr → pr.2 = requiredBySchemaTest m := by
  induction m with
  | nil =>
    intro pr h
    simp only [parse_fields, Except.ok.injEq] at h
    subst h
    rfl
  | cons kv rest ih =>
    intro pr h
    obtain ⟨k, v⟩ := kv
    simp only [parse_fields] at h
    cases k with
    | string key =>
      cases hpv : parse_schema_value v with
      | error e => rw [hpv] at h; simp at h
      | ok prop =>
        rw [hpv] at h
        cases hpr : parse_fields rest with
        | error e => rw [hpr] at h; simp at h
        | ok pr' =>
          rw [hpr] at h
          simp only [Except.ok.injEq] at h
          subst h
          simp only [requiredBySchemaTest, List.filterMap_cons, Yaml.as_str]
          rw [hpv]
          have hrest := ih pr' hpr
          by_cases hopt : is_optional_schema prop
          · simp only [hopt, if_true]
            exact hrest
          · simp only [hopt, if_false]
            rw [hrest]
            rfl
    | null => simp at h
    | bool b => simp at h
    | number n => simp at h
    | sequence xs => simp at h
    | mapping es => simp at h
    | tagged t v' => simp at h

/-- C1.  Lowering a YAML mapping produces an object schema whose required
array contains exactly the names of the fields whose lowered schema is not
an anyOf containing a null-typed branch, in declaration order; in
particular a mapping with one optional field between two non-optional
ones yields exactly the two non-optional names in order. -/
theorem C1_mapping_required_names :
    (∀ (m : List (Yaml × Yaml)) (s : Json), parse_schema_value (.mapping m) = .ok s →
      s.get "type" = some (Json.str "object") ∧
      s.get "required" = some (Json.arr (requiredBySchemaTest m))) ∧
    (parse_schema_value (.mapping
        [(.string "a", .string "string"), (.string "b", .string "string?"),
         (.string "c", .string "integer")])).map (fun s => s.get "required")
      = .ok (some (Json.arr [Json.str "a", Json.str "c"])) := by
  constructor
  · intro m s h
    simp only [parse_schema_value] at h
    cases hpf : parse_fields m with
    | error e => rw [hpf] at h; simp at h
    | ok pr =>
      rw [hpf] at h
      simp only [Except.ok.injEq] at h
      subst h
      refine ⟨rfl, ?_⟩
      have hget : (Json.obj [("type", Json.str "object"), ("properties", Json.obj pr.1),
          ("required", Json.arr pr.2)]).get "required" = some (Json.arr pr.2) := rfl
      rw [hget, parse_fields_required m pr hpf]
  · rfl

/-- Witness for C1: the universal clause applied to the three-field
mapping with one optional field, discharging the success hypothesis by
computation. -/
theorem C1_mapping_required_names_witness :
    (Json.obj [("type", Json.str "object"),
      ("properties", Json.obj [("a", Json.obj [("type", Json.str "string")]),
        ("b", Json.obj [("anyOf", Json.arr [Json.obj [("type", Json.str "string")],
          Json.obj [("type", Json.str "null")]])]),
        ("c", Json.obj [("type", Json.str "integer")])]),
      ("required", Json.arr [Json.str "a", Json.str "c"])]).get "required"
      = some (Json.arr (requiredBySchemaTest
          [(.string "a", .string "string"), (.string "b", .string "string?"),
           (.string "c", .string "integer")])) :=
  (C1_mapping_required_names.1
    [(.string "a", .string "string"), (.string "b", .string "string?"),
     (.string "c", .string "integer")] _ rfl).2

/-- C8.  A one-element YAML sequence lowers to an array schema over its
element's lowering; a sequence of any other length fails with the
`InvalidSchema` arity message; and the null, boolean, number and tagged
node kinds all fail with `InvalidSchema`. -/
theorem C8_sequence_arity :
    (∀ (a : Yaml) (S : Json), parse_schema_value a = .ok S →
      parse_schema_value (.sequence [a]) =
        .ok (Json.obj [("type", Json.str "array"), ("items", S)])) ∧
    (∀ seq : List Yaml, seq.length ≠ 1 →
      parse_schema_value (.sequence seq) =
        .error (.invalidSchema "Array schema must have exactly one element defining the item type")) ∧
    resultIsInvalidSchema (parse_schema_value .null) = true ∧
    (∀ b, resultIsInvalidSchema (parse_schema_value (.bool b)) = true) ∧
    (∀ n, resultIsInvalidSchema (parse_schema_value (.number n)) = true) ∧
    (∀ t v, resultIsInvalidSchema (parse_schema_value (.tagged t v)) = true) := by
  refine ⟨?_, ?_, rfl, fun b => rfl, fun n => rfl, fun t v => rfl⟩
  · intro a S h
    simp only [parse_schema_value, h]
  · intro seq hlen
    match seq with
    | [] => rfl
    | [a] => exact absurd rfl hlen
    | a :: b :: t => rfl

/-- Witness for C8: the arity clauses evaluated at a concrete singleton
and at the empty sequence. -/
theorem C8_sequence_arity_witness :
    parse_schema_value (.sequence [.string "string"]) =
      .ok (Json.obj [("type", Json.str "array"), ("items", Json.obj [("type", Json.str "string")])]) ∧
    parse_schema_value (.sequence []) =
      .error (.invalidSchema "Array schema must have exactly one element defining the item type") :=
  ⟨C8_sequence_arity.1 (.string "string") (Json.obj [("type", Json.str "string")]) rfl,
   C8_sequence_arity.2.1 [] (by decide)⟩

/-- C4 (counterexample).  When the decoded frontmatter mapping carries no
`name` key, `parse_prompt_file` fails with a `YamlParse` error carrying
serde's missing-field message, not with `MissingField("name")`. -/
theorem C4_missing_name_counterexample :
    parse_prompt_file (fun _ => .ok (Yaml.mapping [(.string "a", .string "b")]))
        "---\na: b\n---\nbody"
      = .error (.yamlParse 0 "missing field `name`") ∧
    ¬ (parse_prompt_file (fun _ => .ok (Yaml.mapping [(.string "a", .string "b")]))
        "---\na: b\n---\nbody"
      = .error (.missingField "name")) := by
  refine ⟨rfl, fun h => ?_⟩
  rw [show parse_prompt_file (fun _ => .ok (Yaml.mapping [(.string "a", .string "b")]))
      "---\na: b\n---\nbody" = .error (.yamlParse 0 "missing field `name`") from rfl] at h
  exact PromptError.noConfusion (Except.error.inj h)

/-- C4 (amended).  `parse_prompt_file` fails with `MissingField("name")`
exactly when YAML decoding succeeds with an empty name string; an absent
name field instead fails struct decoding and surfaces as a `YamlParse`
error carrying serde's missing-field message. -/
theorem C4_missing_name_amended :
    (∀ (yamlOfText : String → Except String Yaml) (content f b : String) (v : Yaml)
        (fm : Frontmatter),
      split_frontmatter content = .ok (f, b) → yamlOfText f = .ok v →
      decodeFrontmatter v = .ok fm → fm.name = "" →
      parse_prompt_file yamlOfText content = .error (.missingField "name")) ∧
    (∀ (yamlOfText : String → Except String Yaml) (content f b : String)
        (entries : List (Yaml × Yaml)),
      split_frontmatter content = .ok (f, b) → yamlOfText f = .ok (.mapping entries) →
      yamlLookup entries "name" = none →
      parse_prompt_file yamlOfText content = .error (.yamlParse 0 "missing field `name`")) := by
  constructor
  · intro p content f b v fm hsp hy hdec hname
    simp only [parse_prompt_file, hsp]
    have hbind : p f >>= decodeFrontmatter = Except.ok fm := by
      rw [hy]
      exact hdec
    rw [hbind]
    simp [buildDefinition, hname]
  · intro p content f b entries hsp hy hlook
    simp only [parse_prompt_file, hsp]
    have hdec : decodeFrontmatter (.mapping entries) = .error "missing field `name`" := by
      simp only [decodeFrontmatter, hlook]
      rfl
    have hbind : p f >>= decodeFrontmatter = Except.error "missing field `name`" := by
      rw [hy]
      exact hdec
    rw [hbind]

/-- Witness for C4 (amended): the empty-name clause evaluated at a
concrete document whose frontmatter decodes with name equal to "". -/
theorem C4_missing_name_amended_witness :
    parse_prompt_file (fun _ => .ok (Yaml.mapping [(.string "name", .string "")]))
        "---\nname:\n---\nb"
      = .error (.missingField "name") :=
  C4_missing_name_amended.1 (fun _ => .ok (Yaml.mapping [(.string "name", .string "")]))
    "---\nname:\n---\nb" "name:" "b" (Yaml.mapping [(.string "name", .string "")])
    ⟨"", none, none, none, none, none, none, none⟩ rfl rfl rfl rfl

/-- C6.  For every successfully assembled definition whose optional
frontmatter fields are absent, the stated defaults apply (client
"anthropic/claude-sonnet", type "llm", empty tools, max_turns 10); and on
the specification's example document the parse yields exactly the stated
record, including the compiled inputs schema. -/
theorem C6_defaults_and_example :
    (∀ (fm : Frontmatter) (body : String) (d : PromptDefinition),
      fm.client = none → fm.prompt_type = none → fm.tools = none → fm.max_turns = none →
      buildDefinition fm body = .ok d →
      d.client = "anthropic/claude-sonnet" ∧ d.prompt_type = "llm" ∧
        d.tools = [] ∧ d.max_turns = 10) ∧
    (∀ yamlOfText : String → Except String Yaml,
      yamlOfText "name: SimplePrompt\nclient: anthropic/claude-sonnet\ninputs:\n  query: string\noutput:\n  result: string"
        = .ok exampleFrontmatterYaml →
      parse_prompt_file yamlOfText exampleDoc =
        .ok ⟨"SimplePrompt", "anthropic/claude-sonnet", "llm",
          Json.obj [("type", Json.str "object"),
            ("properties", Json.obj [("query", Json.obj [("type", Json.str "string")])]),
            ("required", Json.arr [Json.str "query"])],
          Json.obj [("type", Json.str "object"),
            ("properties", Json.obj [("result", Json.obj [("type", Json.str "string")])]),
            ("required", Json.arr [Json.str "result"])],
          [], 10, "Answer this: \x7b\x7b query \x7d\x7d", none⟩) := by
  constructor
  · intro fm body d h1 h2 h3 h4 hb
    simp only [buildDefinition] at hb
    split at hb
    · simp at hb
    · cases hpi : parse_schema fm.inputs with
      | error e => rw [hpi] at hb; simp at hb
      | ok i =>
        rw [hpi] at hb
        cases hpo : parse_schema fm.output with
        | error e => rw [hpo] at hb; simp at hb
        | ok o =>
          rw [hpo] at hb
          simp only [Except.ok.injEq] at hb
          subst hb
          simp [h1, h2, h3, h4]
  · intro p hp
    have hsp : split_frontmatter exampleDoc =
        .ok ("name: SimplePrompt\nclient: anthropic/claude-sonnet\ninputs:\n  query: string\noutput:\n  result: string",
          "Answer this: \x7b\x7b query \x7d\x7d") := rfl
    simp only [parse_prompt_file, hsp]
    rw [hp]
    rfl

/-- Witness for C6: the defaults clause at a frontmatter with all
optional fields absent, and the example clause at the parser returning
the example's YAML value. -/
theorem C6_defaults_and_example_witness :
    ((PromptDefinition.mk "X" "anthropic/claude-sonnet" "llm" (Json.obj []) (Json.obj [])
        [] 10 "" none).client = "anthropic/claude-sonnet" ∧
      (PromptDefinition.mk "X" "anthropic/claude-sonnet" "llm" (Json.obj []) (Json.obj [])
        [] 10 "" none).prompt_type = "llm" ∧
      (PromptDefinition.mk "X" "anthropic/claude-sonnet" "llm" (Json.obj []) (Json.obj [])
        [] 10 "" none).tools = [] ∧
      (PromptDefinition.mk "X" "anthropic/claude-sonnet" "llm" (Json.obj []) (Json.obj [])
        [] 10 "" none).max_turns = 10) ∧
    parse_prompt_file (fun _ => .ok exampleFrontmatterYaml) exampleDoc =
      .ok ⟨"SimplePrompt", "anthropic/claude-sonnet", "llm",
        Json.obj [("type", Json.str "object"),
          ("properties", Json.obj [("query", Json.obj [("type", Json.str "string")])]),
          ("required", Json.arr [Json.str "query"])],
        Json.obj [("type", Json.str "object"),
          ("properties", Json.obj [("result", Json.obj [("type", Json.str "string")])]),
          ("required", Json.arr [Json.str "result"])],
        [], 10, "Answer this: \x7b\x7b query \x7d\x7d", none⟩ :=
  ⟨C6_defaults_and_example.1 ⟨"X", none, none, none, none, none, none, none⟩ ""
      (PromptDefinition.mk "X" "anthropic/claude-sonnet" "llm" (Json.obj []) (Json.obj [])
        [] 10 "" none) rfl rfl rfl rfl rfl,
   C6_defaults_and_example.2 (fun _ => .ok exampleFrontmatterYaml) rfl⟩

/-- C7.  The fail-fast and detailed validation entry points agree: for
every evaluator, schema and instance, the fail-fast call returns Ok
exactly when the detailed call returns Ok with the empty list; a schema
compilation failure makes both return `InvalidSchema`; and on a
non-conforming instance the fail-fast call returns `ValidationFailed`
carrying all diagnostic messages joined by a comma while the detailed
call returns the full formatted diagnostic list. -/
theorem C7_validate_equivalence (E : SchemaEvaluator) (schema data : Json) :
    (validate_json E schema data = .ok () ↔ validate_with_details E schema data = .ok []) ∧
    (∀ msg, E.compile schema = .error msg →
      validate_json E schema data = .error (.invalidSchema msg) ∧
      validate_with_details E schema data = .error (.invalidSchema msg)) ∧
    (E.compile schema = .ok () → E.diagnostics schema data ≠ [] →
      validate_json E schema data = .error (.validationFailed
        (String.intercalate ", " ((E.diagnostics schema data).map (fun e => e.message)))) ∧
      validate_with_details E schema data = .ok
        ((E.diagnostics schema data).map
          (fun e => "path: " ++ e.instance_path ++ ", error: " ++ e.message))) := by
  refine ⟨?_, ?_, ?_⟩
  · cases hc : E.compile schema with
    | error msg => simp [validate_json, validate_with_details, hc]
    | ok u =>
      cases u
      cases hd : E.diagnostics schema data with
      | nil => simp [validate_json, validate_with_details, hc, hd]
      | cons x xs => simp [validate_json, validate_with_details, hc, hd]
  · intro msg hc
    constructor <;> simp [validate_json, validate_with_details, hc]
  · intro hc hne
    obtain ⟨x, xs, hd⟩ := List.exists_cons_of_ne_nil hne
    constructor <;> simp [validate_json, validate_with_details, hc, hd]

/-- Witness for C7: the compile-failure clause at an evaluator whose
compilation always fails with message "bad". -/
theorem C7_validate_equivalence_witness :
    validate_json ⟨fun _ => .error "bad", fun _ _ => []⟩ Json.null Json.null
      = .error (.invalidSchema "bad") ∧
    validate_with_details ⟨fun _ => .error "bad", fun _ _ => []⟩ Json.null Json.null
      = .error (.invalidSchema "bad") :=
  (C7_validate_equivalence ⟨fun _ => .error "bad", fun _ _ => []⟩ Json.null Json.null).2.1
    "bad" rfl

end PromptParser
